import Mathlib

/-!
Verification development for the claude-optic session-reading pipeline.

The TypeScript source is shallowly embedded: pure functions become Lean
functions over explicit data; newline-delimited JSON files become
`Option (List (Line α))` where `none` models a missing file, `Line.blank`
a whitespace-only line, `Line.malformed` a line `JSON.parse` rejects, and
`Line.ok e` a successfully parsed record. JS strings are modelled by
`String`, JS numbers holding epoch milliseconds or token counts by `Int`,
and dollar amounts by `ℚ`. Operations whose core-library counterparts do
not reduce in the kernel (split, replaceAll, lexicographic compare,
substring search, lowercase) are re-implemented over `List Char` with the
same semantics as the JS string methods the source calls.

JS regular expressions are run by an external engine; a configured
redaction pattern is therefore modelled by its action on a string
(the function `s ↦ s.replace(re, "[REDACTED]")`), carried in the
configuration as a `String → String`. The one regex whose behaviour the
source itself depends on — the absolute-path compaction in
`redactString` — is implemented faithfully as a character scanner.
The ambient `homedir()` value is threaded as an explicit `home` argument.
-/

namespace ClaudeOptic

/-- Lexicographic code-unit comparison of character lists, mirroring the
JS `<` operator on strings. -/
def charListLt : List Char → List Char → Bool
  | _, [] => false
  | [], _ :: _ => true
  | a :: as, b :: bs =>
    if a.val < b.val then true
    else if b.val < a.val then false
    else charListLt as bs

/-- JS string comparison `a < b`. -/
def jsStrLt (a b : String) : Bool :=
  charListLt a.toList b.toList

/-- JS `String.prototype.includes`: substring containment. -/
def strIncludes (hay needle : String) : Bool :=
  (List.range (hay.toList.length + 1)).any fun i =>
    needle.toList.isPrefixOf (hay.toList.drop i)

/-- JS `String.prototype.startsWith` for a literal prefix. -/
def jsStartsWith (s pre : String) : Bool :=
  pre.toList.isPrefixOf s.toList

/-- Character-level worker for `jsReplaceAll`; `fuel` bounds recursion and
is always supplied as the input length, which suffices because every step
consumes at least one character. -/
def replaceAllAux (needle repl : List Char) : Nat → List Char → List Char
  | _, [] => []
  | 0, cs => cs
  | fuel + 1, c :: cs =>
    if needle ≠ [] ∧ needle.isPrefixOf (c :: cs) then
      repl ++ replaceAllAux needle repl fuel ((c :: cs).drop needle.length)
    else
      c :: replaceAllAux needle repl fuel cs

/-- JS `String.prototype.replaceAll` with a literal (non-regex) search
string: replaces every non-overlapping occurrence, scanning left to
right. -/
def jsReplaceAll (s needle repl : String) : String :=
  String.mk (replaceAllAux needle.toList repl.toList s.toList.length s.toList)

/-- Character-level worker for `jsSplit`. -/
def splitAux (sep : List Char) : Nat → List Char → List (List Char)
  | _, [] => [[]]
  | 0, cs => [cs]
  | fuel + 1, c :: cs =>
    if sep ≠ [] ∧ sep.isPrefixOf (c :: cs) then
      [] :: splitAux sep fuel ((c :: cs).drop sep.length)
    else
      match splitAux sep fuel cs with
      | [] => [[c]]
      | piece :: rest => (c :: piece) :: rest

/-- JS `String.prototype.split` with a non-empty literal separator. -/
def jsSplit (s sep : String) : List String :=
  (splitAux sep.toList s.toList.length s.toList).map String.mk

/-- JS `String.prototype.toLowerCase` (ASCII range, which is all the
source compares). -/
def jsToLower (s : String) : String :=
  String.mk (s.toList.map Char.toLower)

/-- Truthiness of an optional JS string: `undefined` and `""` are falsy. -/
def strOptTruthy : Option String → Bool
  | none => false
  | some s => !s.isEmpty

/-! ## src/utils/paths.ts -/

/-- Encode a project path for filesystem storage: `projectPath.replace(/\//g, "-")`,
a global single-character replacement. -/
def encodeProjectPath (projectPath : String) : String :=
  String.mk (projectPath.toList.map fun c => if c = '/' then '-' else c)

/-- Decode an encoded project path: globally replace each dash with a
slash (best-effort, ambiguous per the source's own comment). -/
def decodeProjectPath (encoded : String) : String :=
  String.mk (encoded.toList.map fun c => if c = '-' then '/' else c)

/-- Short project name: `projectPath.split("/").pop() || projectPath`. -/
def projectName (projectPath : String) : String :=
  match (jsSplit projectPath "/").getLast? with
  | some last => if last = "" then projectPath else last
  | none => projectPath

/-! ## Data model (src/types) -/

/-- Session time range `{start, end}` in epoch milliseconds. -/
structure TimeRange where
  start : Int
  «end» : Int
deriving Repr, DecidableEq

/-- One line from history.jsonl — a single user prompt. -/
structure HistoryEntry where
  display : String
  timestamp : Int
  project : String
  sessionId : String
deriving Repr, DecidableEq

/-- Tier-1 session view derived from history.jsonl grouping only. -/
structure SessionInfo where
  sessionId : String
  project : String
  projectName : String
  prompts : List String
  promptTimestamps : List Int
  timeRange : TimeRange
deriving Repr, DecidableEq

/-- Tool categories (closed set from src/types/session.ts). -/
inductive ToolCategory
  | file_read
  | file_write
  | shell
  | search
  | web
  | task
  | other
deriving Repr, DecidableEq

/-- Deduplicated tool-call summary. -/
structure ToolCallSummary where
  name : String
  displayName : String
  category : ToolCategory
  target : Option String
deriving Repr, DecidableEq

/-- Tier-2 session metadata. -/
structure SessionMeta extends SessionInfo where
  gitBranch : Option String
  model : Option String
  totalInputTokens : Int
  totalOutputTokens : Int
  cacheCreationInputTokens : Int
  cacheReadInputTokens : Int
  messageCount : Int
deriving Repr, DecidableEq

/-- Tier-3 full session detail. -/
structure SessionDetail extends SessionMeta where
  assistantSummaries : List String
  toolCalls : List ToolCallSummary
  filesReferenced : List String
  planReferenced : Bool
  thinkingBlockCount : Int
  hasSidechains : Bool
deriving Repr, DecidableEq

/-- Content-block tag. -/
inductive BlockType
  | text
  | thinking
  | tool_use
  | tool_result
deriving Repr, DecidableEq

/-- Fields of a tool_use block's `input` object that the source consumes. -/
structure ToolInput where
  file_path : Option String := none
  notebook_path : Option String := none
  command : Option String := none
  pattern : Option String := none
  query : Option String := none
deriving Repr, DecidableEq

/-- A single content block inside a message. -/
structure ContentBlock where
  type : BlockType
  text : Option String := none
  thinking : Option String := none
  name : Option String := none
  input : Option ToolInput := none
deriving Repr, DecidableEq

/-- Message content: a plain string or a block array. -/
inductive MessageContent
  | str (s : String)
  | blocks (bs : List ContentBlock)
deriving Repr, DecidableEq

/-- Message role. -/
inductive Role
  | user
  | assistant
deriving Repr, DecidableEq

/-- Token usage payload. -/
structure Usage where
  input_tokens : Option Int := none
  output_tokens : Option Int := none
  cache_creation_input_tokens : Option Int := none
  cache_read_input_tokens : Option Int := none
deriving Repr, DecidableEq

/-- Message payload of a transcript entry. -/
structure Message where
  role : Option Role := none
  content : Option MessageContent := none
  model : Option String := none
  usage : Option Usage := none
deriving Repr, DecidableEq

/-- Raw line from a session JSONL file; `toolUseResult` records presence of
that field (`entry.toolUseResult !== undefined`). -/
structure TranscriptEntry where
  message : Option Message := none
  gitBranch : Option String := none
  planContent : Option String := none
  isSidechain : Option Bool := none
  timestamp : Option String := none
  sessionId : Option String := none
  toolUseResult : Bool := false
deriving Repr, DecidableEq

/-- One physical line of a newline-delimited JSON file, as the scanners
see it: whitespace-only, unparsable, or a parsed record. -/
inductive Line (α : Type)
  | blank
  | malformed
  | ok (e : α)
deriving Repr, DecidableEq

/-- Privacy configuration. A redaction pattern is a JS RegExp run by the
external engine; it is modelled by its replacement action
`s ↦ s.replace(re, "[REDACTED]")` as a `String → String`. -/
structure PrivacyConfig where
  redactPrompts : Bool
  redactAbsolutePaths : Bool
  redactHomeDir : Bool
  stripThinking : Bool
  stripToolResults : Bool
  redactPatterns : List (String → String)
  excludeProjects : List String

/-! ## src/privacy/redact.ts -/

/-- Characters excluded by the path regex's character class (the JS class
rejecting whitespace, double quote, single quote, comma, semicolon,
closing parenthesis, closing brace and closing bracket). -/
def isPathStopChar (c : Char) : Bool :=
  c.isWhitespace || c = '"' || c = '\'' || c = ',' || c = ';' ||
    c = ')' || c = '\x7d' || c = ']'

/-- Attempt to match the absolute-path regex at the head of `cs`: a slash,
then the literal `Users` or `home`, then a slash, then one or more
non-stop characters (greedy). Returns the matched characters and the
remainder. -/
def pathMatchAt (cs : List Char) : Option (List Char × List Char) :=
  let tryLit : List Char → Option (List Char × List Char) := fun pre =>
    if pre.isPrefixOf cs then
      let rest := cs.drop pre.length
      let run := rest.takeWhile fun c => !isPathStopChar c
      if run.isEmpty then none
      else some (pre ++ run, rest.drop run.length)
    else none
  match tryLit "/Users/".toList with
  | some r => some r
  | none => tryLit "/home/".toList

/-- Replacement applied to one path match: split on slash and keep the
last two segments when there are more than two. -/
def compactPath (m : List Char) : List Char :=
  let parts := jsSplit (String.mk m) "/"
  if parts.length > 2 then
    (String.intercalate "/" (parts.drop (parts.length - 2))).toList
  else m

/-- Global scan for `redactAbsolutePaths`: at each position try the path
regex; on a match emit the compacted replacement and continue after the
match, otherwise emit the character and advance. `fuel` is always the
input length, which suffices because a match consumes at least one
character. -/
def pathScanAux : Nat → List Char → List Char
  | _, [] => []
  | 0, cs => cs
  | fuel + 1, c :: cs =>
    match pathMatchAt (c :: cs) with
    | some (m, rest) => compactPath m ++ pathScanAux fuel rest
    | none => c :: pathScanAux fuel cs

/-- Absolute-path compaction over a whole string. -/
def pathScan (s : String) : String :=
  String.mk (pathScanAux s.toList.length s.toList)

/-- Apply all configured redaction steps to a string, in source order:
home-directory literal replacement, absolute-path compaction, then each
configured pattern's action. -/
def redactString (home : String) (text : String) (config : PrivacyConfig) : String :=
  let r1 := if config.redactHomeDir then jsReplaceAll text home "~" else text
  let r2 := if config.redactAbsolutePaths then pathScan r1 else r1
  config.redactPatterns.foldl (fun acc p => p acc) r2

/-- Filter content blocks according to privacy config. -/
def filterContentBlocks (home : String) (config : PrivacyConfig) :
    List ContentBlock → List ContentBlock
  | [] => []
  | block :: rest =>
    if config.stripThinking && block.type = BlockType.thinking then
      filterContentBlocks home config rest
    else if config.stripToolResults && block.type = BlockType.tool_result then
      filterContentBlocks home config rest
    else if strOptTruthy block.text && config.redactPatterns.length > 0 then
      { block with text := some (redactString home (block.text.getD "") config) } ::
        filterContentBlocks home config rest
    else
      block :: filterContentBlocks home config rest

/-- Fall-through tail of `filterTranscriptEntry`: an assistant message
with block-structured content has its blocks filtered; every other shape
passes through unchanged. -/
def filterAssistantCase (home : String) (config : PrivacyConfig)
    (entry : TranscriptEntry) (msg : Message) : Option TranscriptEntry :=
  match msg.role, msg.content with
  | some Role.assistant, some (MessageContent.blocks bs) =>
    some { entry with message := some ({ msg with
      content := some (MessageContent.blocks
        (filterContentBlocks home config bs)) }) }
  | _, _ => some entry

/-- Body of `filterTranscriptEntry` once a message is present: user
prompts with string content are redacted wholesale when configured,
otherwise control falls through to the assistant-content case. -/
def filterMessageCase (home : String) (config : PrivacyConfig)
    (entry : TranscriptEntry) (msg : Message) : Option TranscriptEntry :=
  if config.redactPrompts && msg.role = some Role.user then
    match msg.content with
    | some (MessageContent.str _) =>
      some { entry with message := some ({ msg with
        content := some (MessageContent.str "[redacted]") }) }
    | _ => filterAssistantCase home config entry msg
  else filterAssistantCase home config entry msg

/-- Filter a transcript entry according to privacy config. Returns `none`
to skip entirely. -/
def filterTranscriptEntry (home : String) (entry : TranscriptEntry)
    (config : PrivacyConfig) : Option TranscriptEntry :=
  if config.stripToolResults && entry.toolUseResult then none
  else
    match entry.message with
    | none => some entry
    | some msg => filterMessageCase home config entry msg

/-- Check whether a project should be excluded. -/
def isProjectExcluded (projectPath : String) (config : PrivacyConfig) : Bool :=
  if config.excludeProjects.length = 0 then false
  else
    let lower := jsToLower projectPath
    config.excludeProjects.any fun p => strIncludes lower (jsToLower p)

/-! ## src/privacy/config.ts -/

/-- Profile "local": strip tool results and thinking only. -/
def LOCAL_PROFILE : PrivacyConfig :=
  { redactPrompts := false
    redactAbsolutePaths := false
    redactHomeDir := false
    stripThinking := true
    stripToolResults := true
    redactPatterns := []
    excludeProjects := [] }

/-- Profile "shareable": local plus path and home-directory redaction. -/
def SHAREABLE_PROFILE : PrivacyConfig :=
  { LOCAL_PROFILE with redactAbsolutePaths := true, redactHomeDir := true }

/-- Profile "strict": shareable plus prompt redaction and the built-in
credential, email and IP patterns. Those seven regexes are external-engine
values, so their replacement actions are supplied as `pats`; every theorem
about the strict profile quantifies over them. -/
def STRICT_PROFILE (pats : List (String → String)) : PrivacyConfig :=
  { SHAREABLE_PROFILE with redactPrompts := true, redactPatterns := pats }

/-! ## src/pricing.ts -/

/-- Per-million-token pricing in USD. -/
structure ModelPricing where
  input : ℚ
  output : ℚ
  cacheWrite : ℚ
  cacheRead : ℚ
deriving Repr, DecidableEq

/-- Built-in model pricing table (USD per million tokens). -/
def MODEL_PRICING : List (String × ModelPricing) :=
  [ ("claude-opus-4-5-20250514", ⟨15, 75, 18.75, 1.5⟩)
  , ("claude-opus-4-6", ⟨15, 75, 18.75, 1.5⟩)
  , ("claude-sonnet-4-5-20250929", ⟨3, 15, 3.75, 0.3⟩)
  , ("claude-sonnet-4-5-20250514", ⟨3, 15, 3.75, 0.3⟩)
  , ("claude-sonnet-4-0-20250514", ⟨3, 15, 3.75, 0.3⟩)
  , ("claude-haiku-4-5-20251001", ⟨0.8, 4, 1, 0.08⟩)
  , ("claude-haiku-3-5-20241022", ⟨0.8, 4, 1, 0.08⟩)
  , ("claude-3-5-sonnet-20241022", ⟨3, 15, 3.75, 0.3⟩)
  , ("claude-3-5-sonnet-20240620", ⟨3, 15, 3.75, 0.3⟩)
  , ("claude-3-5-haiku-20241022", ⟨0.8, 4, 1, 0.08⟩)
  , ("claude-3-opus-20240229", ⟨15, 75, 18.75, 1.5⟩) ]

/-- Designated fallback rate tier (Sonnet rates). -/
def FALLBACK_PRICING : ModelPricing := ⟨3, 15, 3.75, 0.3⟩

/-- Lookup in a pricing table by exact model id. -/
def lookupPricing (table : List (String × ModelPricing)) (m : String) :
    Option ModelPricing :=
  (table.find? fun kv => kv.1 = m).map (·.2)

/-- Look up pricing for a model, falling back to Sonnet rates. The active
table is the built-in default (`setPricing` merges overrides onto it; the
default state is embedded). A missing or falsy (empty) model id takes the
fallback. -/
def getModelPricing (model : Option String) : ModelPricing :=
  match model with
  | none => FALLBACK_PRICING
  | some m =>
    if m = "" then FALLBACK_PRICING
    else (lookupPricing MODEL_PRICING m).getD FALLBACK_PRICING

/-- Estimate USD cost of a session from token counts and model. -/
def estimateCost (session : SessionMeta) : ℚ :=
  let pricing := getModelPricing session.model
  let m : ℚ := 1000000
  (session.totalInputTokens : ℚ) / m * pricing.input +
    (session.totalOutputTokens : ℚ) / m * pricing.output +
    (session.cacheCreationInputTokens : ℚ) / m * pricing.cacheWrite +
    (session.cacheReadInputTokens : ℚ) / m * pricing.cacheRead

/-! ## src/aggregations/time.ts -/

/-- Gap cap in ms — gaps between consecutive prompts beyond this are
capped. -/
def GAP_CAP_MS : Int := 15 * 60 * 1000

/-- Ascending numeric sort, as the JS comparator `(a, b) => a - b`. -/
def sortInts (l : List Int) : List Int :=
  l.mergeSort fun a b => decide (a ≤ b)

/-- Sum over consecutive pairs of `min(gap, GAP_CAP_MS)`. -/
def gapSumMs : List Int → Int
  | a :: b :: rest => min (b - a) GAP_CAP_MS + gapSumMs (b :: rest)
  | _ => 0

/-- Timestamp list one session contributes: its prompt timestamps sorted
ascending, or — when there are none — the positive values among the time
range's start and end. -/
def sessionTimestamps (s : SessionInfo) : List Int :=
  if s.promptTimestamps.length > 0 then sortInts s.promptTimestamps
  else [s.timeRange.start, s.timeRange.«end»].filter fun t => decide (t > 0)

/-- Milliseconds one session adds to the estimate (body of the loop in
`estimateHours`). -/
def sessionContributionMs (s : SessionInfo) : Int :=
  let timestamps := sessionTimestamps s
  if timestamps.length ≤ 1 then 5 * 60 * 1000
  else gapSumMs timestamps

/-- Estimate hours of active work from session timestamp data. -/
def estimateHours (sessions : List SessionInfo) : ℚ :=
  if sessions.length = 0 then 0
  else
    let totalMs := sessions.foldl (fun acc s => acc + sessionContributionMs s) 0
    (totalMs : ℚ) / (1000 * 60 * 60)

/-! ## src/readers/history-reader.ts

`toLocalDate` converts an epoch-millisecond timestamp to a `YYYY-MM-DD`
string in the machine's local timezone; it is environment-dependent and
threaded as the explicit `dateOf` argument. -/

/-- Per-line acceptance in `readHistory`: parsed, date inside
`[fromDate, toDate]` (JS string comparison), project not excluded. -/
def acceptLine (dateOf : Int → String) (fromDate toDate : String)
    (privacy : PrivacyConfig) : Line HistoryEntry → Option HistoryEntry
  | Line.blank => none
  | Line.malformed => none
  | Line.ok e =>
    let entryDate := dateOf e.timestamp
    if jsStrLt entryDate fromDate || jsStrLt toDate entryDate then none
    else if isProjectExcluded e.project privacy then none
    else some e

/-- Date-window predicate on a raw line (the early-exit condition of the
scan); non-record lines trivially pass. -/
def inWindow (dateOf : Int → String) (fromDate toDate : String) :
    Line HistoryEntry → Bool
  | Line.ok e =>
    !(jsStrLt (dateOf e.timestamp) fromDate || jsStrLt toDate (dateOf e.timestamp))
  | _ => true

/-- Redaction applied to one row's display text before grouping. -/
def displayOf (home : String) (privacy : PrivacyConfig) (e : HistoryEntry) : String :=
  if privacy.redactPrompts then "[redacted]"
  else if privacy.redactPatterns.length > 0 then redactString home e.display privacy
  else e.display

/-- Per-session accumulator of the grouping map. -/
structure SessionGroup where
  project : String
  prompts : List String
  timestamps : List Int
deriving Repr, DecidableEq

/-- One step of grouping by session id. The map is an insertion-ordered
association list, as a JS `Map`: an existing key is updated in place, a
new key is appended. -/
def groupStep (home : String) (privacy : PrivacyConfig)
    (m : List (String × SessionGroup)) (e : HistoryEntry) :
    List (String × SessionGroup) :=
  let display := displayOf home privacy e
  if (m.find? fun kv => kv.1 = e.sessionId).isSome then
    m.map fun kv =>
      if kv.1 = e.sessionId then
        (kv.1,
          { kv.2 with
            prompts := kv.2.prompts ++ [display]
            timestamps := kv.2.timestamps ++ [e.timestamp] })
      else kv
  else
    m ++ [(e.sessionId,
      { project := e.project, prompts := [display], timestamps := [e.timestamp] })]

/-- Math.min over a spread list (nonempty in the source). -/
def minList : List Int → Int
  | [] => 0
  | x :: xs => xs.foldl min x

/-- Math.max over a spread list (nonempty in the source). -/
def maxList : List Int → Int
  | [] => 0
  | x :: xs => xs.foldl max x

/-- Build a SessionInfo from one grouping-map entry. -/
def buildSession (kv : String × SessionGroup) : SessionInfo :=
  { sessionId := kv.1
    project := kv.2.project
    projectName := projectName kv.2.project
    prompts := kv.2.prompts
    promptTimestamps := kv.2.timestamps
    timeRange := { start := minList kv.2.timestamps, «end» := maxList kv.2.timestamps } }

/-- Final sort order: ascending by time-range start (comparator
`(a, b) => a.timeRange.start - b.timeRange.start`). -/
def sessionLe (a b : SessionInfo) : Bool :=
  decide (a.timeRange.start ≤ b.timeRange.start)

/-- Read history.jsonl and group entries into SessionInfo objects.
A missing file (`none`) yields the empty list. -/
def readHistory (home : String) (dateOf : Int → String)
    (file : Option (List (Line HistoryEntry))) (fromDate toDate : String)
    (privacy : PrivacyConfig) : List SessionInfo :=
  match file with
  | none => []
  | some lines =>
    let entries := lines.filterMap (acceptLine dateOf fromDate toDate privacy)
    let sessionMap := entries.foldl (groupStep home privacy) []
    (sessionMap.map buildSession).mergeSort sessionLe

/-! ## src/readers/session-reader.ts -/

/-- Zero-valued metadata unioned onto the input view (the initial `meta`
object of `peekSession`; `gitBranch` and `model` start absent). -/
def zeroMeta (session : SessionInfo) : SessionMeta :=
  { toSessionInfo := session
    gitBranch := none
    model := none
    totalInputTokens := 0
    totalOutputTokens := 0
    cacheCreationInputTokens := 0
    cacheReadInputTokens := 0
    messageCount := 0 }

/-- Loop body of `peekSession` for one line. -/
def peekStep (meta : SessionMeta) : Line TranscriptEntry → SessionMeta
  | Line.blank => meta
  | Line.malformed => meta
  | Line.ok entry =>
    let m1 :=
      if !strOptTruthy meta.gitBranch && strOptTruthy entry.gitBranch &&
          entry.gitBranch ≠ some "HEAD" then
        { meta with gitBranch := entry.gitBranch }
      else meta
    let m2 :=
      if !strOptTruthy m1.model && strOptTruthy (entry.message.bind (·.model)) then
        { m1 with model := entry.message.bind (·.model) }
      else m1
    let m3 :=
      match entry.message.bind (·.usage) with
      | none => m2
      | some usage =>
        { m2 with
          totalInputTokens := m2.totalInputTokens + usage.input_tokens.getD 0
          totalOutputTokens := m2.totalOutputTokens + usage.output_tokens.getD 0
          cacheCreationInputTokens :=
            m2.cacheCreationInputTokens + usage.cache_creation_input_tokens.getD 0
          cacheReadInputTokens :=
            m2.cacheReadInputTokens + usage.cache_read_input_tokens.getD 0 }
    if entry.message.bind (·.role) = some Role.user ||
        entry.message.bind (·.role) = some Role.assistant then
      { m3 with messageCount := m3.messageCount + 1 }
    else m3

/-- Peek session metadata from a session JSONL file. Scans every line.
Note: the source accepts a `privacy` argument but never consults it; the
embedding mirrors that. -/
def peekSession (session : SessionInfo) (file : Option (List (Line TranscriptEntry)))
    (privacy : PrivacyConfig) : SessionMeta :=
  let _ := privacy
  match file with
  | none => zeroMeta session
  | some lines => lines.foldl peekStep (zeroMeta session)

/-! ## src/readers/tool-categories.ts -/

/-- Fixed name-to-category table. -/
def TOOL_CATEGORY_MAP : List (String × ToolCategory) :=
  [ ("Read", ToolCategory.file_read)
  , ("Glob", ToolCategory.file_read)
  , ("Grep", ToolCategory.file_read)
  , ("ListMcpResourcesTool", ToolCategory.file_read)
  , ("ReadMcpResourceTool", ToolCategory.file_read)
  , ("Write", ToolCategory.file_write)
  , ("Edit", ToolCategory.file_write)
  , ("NotebookEdit", ToolCategory.file_write)
  , ("Bash", ToolCategory.shell)
  , ("WebSearch", ToolCategory.search)
  , ("WebFetch", ToolCategory.web)
  , ("Task", ToolCategory.task)
  , ("TaskCreate", ToolCategory.task)
  , ("TaskUpdate", ToolCategory.task)
  , ("TaskGet", ToolCategory.task)
  , ("TaskList", ToolCategory.task)
  , ("TaskStop", ToolCategory.task)
  , ("TaskOutput", ToolCategory.task)
  , ("EnterPlanMode", ToolCategory.task)
  , ("ExitPlanMode", ToolCategory.task)
  , ("AskUserQuestion", ToolCategory.task)
  , ("Skill", ToolCategory.task) ]

/-- Categorize a tool name: direct table hit, then substring heuristics
for names with the MCP namespace prefix, else "other". -/
def categorizeToolName (name : String) : ToolCategory :=
  match (TOOL_CATEGORY_MAP.find? fun kv => kv.1 = name).map (·.2) with
  | some c => c
  | none =>
    if jsStartsWith name "mcp__" then
      if strIncludes name "search" then ToolCategory.search
      else if strIncludes name "fetch" || strIncludes name "read" then
        ToolCategory.file_read
      else if strIncludes name "write" || strIncludes name "create" ||
          strIncludes name "edit" then ToolCategory.file_write
      else ToolCategory.other
    else ToolCategory.other

/-- Namespace stripping inside `toolDisplayName`:
`name.split("__").pop() || name` when the name has the MCP prefix. -/
def shortToolName (name : String) : String :=
  if jsStartsWith name "mcp__" then
    match (jsSplit name "__").getLast? with
    | some last => if last = "" then name else last
    | none => name
  else name

/-- Last two slash-separated segments of a path, joined by a slash
(`parts.slice(-2).join("/")`). -/
def lastTwoSegments (fp : String) : String :=
  let parts := jsSplit fp "/"
  String.intercalate "/" (parts.drop (parts.length - 2))

/-- Create a human-readable display name for a tool call. The appended
argument is, in source order: a truthy `file_path` (last two segments),
else a truthy `command` (first space-delimited token), else a truthy
`pattern`; otherwise nothing. -/
def toolDisplayName (name : String) (input : Option ToolInput) : String :=
  let shortName := shortToolName name
  match input with
  | none => shortName
  | some inp =>
    if strOptTruthy inp.file_path then
      shortName ++ "(" ++ lastTwoSegments (inp.file_path.getD "") ++ ")"
    else if strOptTruthy inp.command then
      shortName ++ "(" ++ ((jsSplit (inp.command.getD "") " ").headD "") ++ ")"
    else if strOptTruthy inp.pattern then
      shortName ++ "(" ++ inp.pattern.getD "" ++ ")"
    else shortName

/-! ## src/readers/content-blocks.ts -/

/-- Extract text content from message content. -/
def extractText : Option MessageContent → String
  | none => ""
  | some (MessageContent.str s) => s
  | some (MessageContent.blocks bs) =>
    String.intercalate "\n"
      ((bs.filter fun b => b.type = BlockType.text && strOptTruthy b.text).map
        fun b => b.text.getD "")

/-- Most salient target argument of a tool_use block. -/
def extractToolTarget (b : ContentBlock) : Option String :=
  match b.input with
  | none => none
  | some inp =>
    if strOptTruthy inp.file_path then inp.file_path
    else if strOptTruthy inp.notebook_path then inp.notebook_path
    else if strOptTruthy inp.command then
      some ((jsSplit (inp.command.getD "") " ").headD "")
    else if strOptTruthy inp.pattern then inp.pattern
    else if strOptTruthy inp.query then some ((inp.query.getD "").take 80)
    else none

/-- Extract tool-call summaries from content blocks. -/
def extractToolCalls : Option MessageContent → List ToolCallSummary
  | some (MessageContent.blocks bs) =>
    (bs.filter fun b => b.type = BlockType.tool_use && strOptTruthy b.name).map
      fun b =>
        { name := b.name.getD ""
          displayName := toolDisplayName (b.name.getD "") b.input
          category := categorizeToolName (b.name.getD "")
          target := extractToolTarget b }
  | _ => []

/-- Extract file paths referenced in tool_use blocks. -/
def extractFilePaths : Option MessageContent → List String
  | some (MessageContent.blocks bs) =>
    bs.foldl
      (fun paths b =>
        if b.type = BlockType.tool_use then
          match b.input with
          | none => paths
          | some inp =>
            let paths :=
              if strOptTruthy inp.file_path then paths ++ [inp.file_path.getD ""]
              else paths
            if strOptTruthy inp.notebook_path then paths ++ [inp.notebook_path.getD ""]
            else paths
        else paths)
      []
  | _ => []

/-- Count thinking blocks in content. -/
def countThinkingBlocks : Option MessageContent → Int
  | some (MessageContent.blocks bs) =>
    ((bs.filter fun b => b.type = BlockType.thinking).length : Int)
  | _ => 0

/-! ## src/readers/session-detail.ts -/

/-- Truthiness of optional message content: absent and the empty string
are falsy; a block array (even empty) is truthy. -/
def contentTruthy : Option MessageContent → Bool
  | none => false
  | some (MessageContent.str s) => !s.isEmpty
  | some (MessageContent.blocks _) => true

/-- JS `Map.set` on an insertion-ordered association list: an existing key
keeps its position and gets the new value, a new key is appended. -/
def mapSet (m : List (String × ToolCallSummary)) (k : String)
    (v : ToolCallSummary) : List (String × ToolCallSummary) :=
  if (m.find? fun kv => kv.1 = k).isSome then
    m.map fun kv => if kv.1 = k then (k, v) else kv
  else m ++ [(k, v)]

/-- JS `Set.add` on an insertion-ordered list. -/
def setAdd (s : List String) (x : String) : List String :=
  if s.contains x then s else s ++ [x]

/-- Zero-valued detail object unioned onto the input view (the initial
`detail` object of `parseSessionDetail`). -/
def zeroDetail (session : SessionInfo) : SessionDetail :=
  { toSessionMeta := zeroMeta session
    assistantSummaries := []
    toolCalls := []
    filesReferenced := []
    planReferenced := false
    thinkingBlockCount := 0
    hasSidechains := false }

/-- Loop state of `parseSessionDetail`: the accumulating detail plus the
local `toolCallSet`, `fileSet`, `gitBranch` and `model` variables. -/
structure ParseState where
  detail : SessionDetail
  toolCallSet : List (String × ToolCallSummary)
  fileSet : List String
  gitBranch : Option String
  model : Option String
deriving Repr, DecidableEq

/-- Loop body of `parseSessionDetail` for one line. -/
def parseStep (home : String) (privacy : PrivacyConfig) (st : ParseState) :
    Line TranscriptEntry → ParseState
  | Line.blank => st
  | Line.malformed => st
  | Line.ok entry =>
    match filterTranscriptEntry home entry privacy with
    | none => st
    | some filtered =>
      let st :=
        if filtered.isSidechain = some true then
          { st with detail := { st.detail with hasSidechains := true } }
        else st
      let st :=
        if !strOptTruthy st.gitBranch && strOptTruthy filtered.gitBranch &&
            filtered.gitBranch ≠ some "HEAD" then
          { st with gitBranch := filtered.gitBranch }
        else st
      let st :=
        if strOptTruthy filtered.planContent then
          { st with detail := { st.detail with planReferenced := true } }
        else st
      match filtered.message with
      | none => st
      | some msg =>
        let st :=
          if strOptTruthy msg.model && !strOptTruthy st.model then
            { st with model := msg.model }
          else st
        let st :=
          match msg.usage with
          | none => st
          | some usage =>
            { st with detail := { st.detail with
                totalInputTokens :=
                  st.detail.totalInputTokens + usage.input_tokens.getD 0
                totalOutputTokens :=
                  st.detail.totalOutputTokens + usage.output_tokens.getD 0
                cacheCreationInputTokens :=
                  st.detail.cacheCreationInputTokens +
                    usage.cache_creation_input_tokens.getD 0
                cacheReadInputTokens :=
                  st.detail.cacheReadInputTokens +
                    usage.cache_read_input_tokens.getD 0 } }
        let st :=
          if msg.role = some Role.user || msg.role = some Role.assistant then
            { st with detail := { st.detail with
                messageCount := st.detail.messageCount + 1 } }
          else st
        if msg.role = some Role.assistant && contentTruthy msg.content then
          let text := extractText msg.content
          let st :=
            if !text.isEmpty && text.length > 20 then
              { st with detail := { st.detail with
                  assistantSummaries := st.detail.assistantSummaries ++
                    [text.take 200 ++ (if text.length > 200 then "..." else "")] } }
            else st
          let tcs := (extractToolCalls msg.content).foldl
            (fun acc tc => mapSet acc tc.displayName tc) st.toolCallSet
          let st := { st with toolCallSet := tcs }
          let st :=
            { st with fileSet := (extractFilePaths msg.content).foldl setAdd st.fileSet }
          { st with detail := { st.detail with
              thinkingBlockCount :=
                st.detail.thinkingBlockCount + countThinkingBlocks msg.content } }
        else st

/-- Parse a full session JSONL file into a SessionDetail. A missing file
(`none`) yields the zero-valued detail unioned onto the view. -/
def parseSessionDetail (home : String) (session : SessionInfo)
    (file : Option (List (Line TranscriptEntry))) (privacy : PrivacyConfig) :
    SessionDetail :=
  match file with
  | none => zeroDetail session
  | some lines =>
    let st := lines.foldl (parseStep home privacy)
      { detail := zeroDetail session, toolCallSet := [], fileSet := [],
        gitBranch := none, model := none }
    { st.detail with
      toolCalls := st.toolCallSet.map (·.2)
      filesReferenced := st.fileSet
      gitBranch := st.gitBranch
      model := st.model
      assistantSummaries := st.detail.assistantSummaries.take 10 }

/-! ## Concrete example data used in witnesses and counterexamples -/

/-- A minimal session view. -/
def sampleView : SessionInfo :=
  { sessionId := "s1"
    project := "/w/app"
    projectName := "app"
    prompts := []
    promptTimestamps := []
    timeRange := { start := 0, «end» := 0 } }

/-- A transcript record carrying a tool-result payload and a usage
payload: the privacy filter suppresses it when stripToolResults is set. -/
def c2Entry : TranscriptEntry :=
  { message := some { role := some Role.user, usage := some { input_tokens := some 7 } }
    toolUseResult := true }

/-- A session with no prompt timestamps but a recorded time range. -/
def c4Session : SessionInfo :=
  { sampleView with timeRange := { start := 1, «end» := 2 } }

/-- A stand-in replacement action keeping the strict profile's pattern
list non-empty in concrete computations. -/
def c1Pats : List (String → String) :=
  [fun s => jsReplaceAll s "secret" "[REDACTED]"]

/-- Message of `c1BlockEntry`: user role with block-array content. -/
def c1BlockMessage : Message :=
  { role := some Role.user
    content := some (MessageContent.blocks
      [{ type := BlockType.text, text := some "my secret token" }]) }

/-- A user-role transcript record whose content is a block array. -/
def c1BlockEntry : TranscriptEntry :=
  { message := some c1BlockMessage }

/-- A history row whose display text happens to equal the redaction
marker. -/
def c1HistoryRow : HistoryEntry :=
  { display := "[redacted]", timestamp := 5, project := "/w/app", sessionId := "s1" }

/-- A history row whose display text contains a home-directory path. -/
def c3Row : HistoryEntry :=
  { display := "creds at /home/u/creds.txt", timestamp := 5
    project := "/w/app", sessionId := "s1" }

/-- Frame property relating a filtered transcript entry to its input:
every field other than the message content is unchanged, and a carried
message keeps its role, model and usage. -/
def FramePreserved (entry e' : TranscriptEntry) : Prop :=
  e'.timestamp = entry.timestamp ∧ e'.sessionId = entry.sessionId ∧
  e'.gitBranch = entry.gitBranch ∧ e'.isSidechain = entry.isSidechain ∧
  e'.planContent = entry.planContent ∧ e'.toolUseResult = entry.toolUseResult ∧
  (entry.message = none → e'.message = none) ∧
  (∀ m : Message, entry.message = some m → ∃ m' : Message,
    e'.message = some m' ∧ m'.role = m.role ∧ m'.model = m.model ∧
    m'.usage = m.usage)

/-- An assistant entry carrying one thinking block. -/
def c10Before : TranscriptEntry :=
  { message := some
      { role := some Role.assistant
        content := some (MessageContent.blocks
          [{ type := BlockType.thinking, thinking := some "hmm" }]) }
    gitBranch := some "main"
    isSidechain := some false }

/-- The same entry after the "local" profile strips its thinking block. -/
def c10After : TranscriptEntry :=
  { message := some
      { role := some Role.assistant
        content := some (MessageContent.blocks ([] : List ContentBlock)) }
    gitBranch := some "main"
    isSidechain := some false }

/-- Message of `c1StrEntry`: user role, plain string content. -/
def c1StrMessage : Message :=
  { role := some Role.user, content := some (MessageContent.str "hello world") }

/-- A user-role transcript record with string content. -/
def c1StrEntry : TranscriptEntry :=
  { message := some c1StrMessage }

/-- The single SessionView produced from `c3Row` under the "shareable"
profile: the prompt is stored verbatim. -/
def c3View : SessionInfo :=
  { sessionId := "s1"
    project := "/w/app"
    projectName := "app"
    prompts := ["creds at /home/u/creds.txt"]
    promptTimestamps := [5]
    timeRange := { start := 5, «end» := 5 } }

/-- An assistant entry wrapping the given content blocks. -/
def assistantBlocksEntry (bs : List ContentBlock) : TranscriptEntry :=
  { message := some
      { role := some Role.assistant
        content := some (MessageContent.blocks bs) } }

/-- A concrete tool_use block for the dedup witness. -/
def c6Block : ContentBlock :=
  { type := BlockType.tool_use
    name := some "Read"
    input := some { file_path := some "/a/b/c.ts" } }

/-! ## Helper lemmas -/

/-- A list that computes to a singleton is its own merge sort. -/
theorem mergeSortEq_of_singleton {l : List SessionInfo} {v : SessionInfo}
    (h : l = [v]) : l.mergeSort sessionLe = [v] := by
  subst h; exact List.mergeSort_singleton v

/-- Folding the estimate accumulation equals the mapped sum. -/
theorem foldl_contribution (l : List SessionInfo) (acc : Int) :
    l.foldl (fun a s => a + sessionContributionMs s) acc =
      acc + (l.map sessionContributionMs).sum := by
  induction l generalizing acc with
  | nil => simp
  | cons x xs ih => simp [ih]; ring

/-- Character-level round trip of the path encoding, away from dashes. -/
theorem encode_decode_chars (l : List Char) (hl : '-' ∉ l) :
    (l.map fun c => if c = '/' then '-' else c).map
      (fun c => if c = '-' then '/' else c) = l := by
  induction l with
  | nil => rfl
  | cons c cs ih =>
    simp only [List.mem_cons, not_or] at hl
    simp only [List.map_cons, ih hl.2, List.cons.injEq, and_true]
    by_cases hc : c = '/'
    · simp [hc]
    · have hcd : ¬c = '-' := fun h => hl.1 h.symm
      simp [hc, hcd]

/-- C9: For every project path containing no literal dash,
`decodeProjectPath ∘ encodeProjectPath` is the identity; and on the path
"my-app", which contains a dash, the round trip returns "my/app" instead
of the original — the pair is lossy exactly on dashed paths. -/
theorem projectPath_encode_decode :
    (∀ p : String, '-' ∉ p.toList →
      decodeProjectPath (encodeProjectPath p) = p) ∧
    decodeProjectPath (encodeProjectPath "my-app") = "my/app" ∧
    decodeProjectPath (encodeProjectPath "my-app") ≠ "my-app" := by
  refine ⟨?_, by decide, by decide⟩
  intro p hp
  cases p with
  | mk data =>
    show String.mk _ = String.mk data
    simp only [encodeProjectPath, decodeProjectPath, String.toList] at hp ⊢
    rw [encode_decode_chars data hp]

/-- C9 witness: the round trip is the identity on "/w/app". -/
theorem projectPath_encode_decode_witness :
    decodeProjectPath (encodeProjectPath "/w/app") = "/w/app" :=
  projectPath_encode_decode.1 "/w/app" (by decide)

/-- C5: estimateCost is the sum over the four token buckets of
count / 1,000,000 times the bucket rate of the pricing entry looked up by
the session's model id; an undefined model id and a model id absent from
the table both take the designated fallback tier; and 1,000,000 input
tokens with zero other tokens on a model priced at 3 USD per million
input tokens cost exactly 3 USD. -/
theorem estimateCost_bucket_sum :
    (∀ s : SessionMeta,
      estimateCost s =
        (s.totalInputTokens : ℚ) / 1000000 * (getModelPricing s.model).input +
        (s.totalOutputTokens : ℚ) / 1000000 * (getModelPricing s.model).output +
        (s.cacheCreationInputTokens : ℚ) / 1000000 * (getModelPricing s.model).cacheWrite +
        (s.cacheReadInputTokens : ℚ) / 1000000 * (getModelPricing s.model).cacheRead) ∧
    getModelPricing none = FALLBACK_PRICING ∧
    (∀ m : String, lookupPricing MODEL_PRICING m = none →
      getModelPricing (some m) = FALLBACK_PRICING) ∧
    estimateCost { zeroMeta sampleView with
      model := some "claude-sonnet-4-5-20250929"
      totalInputTokens := 1000000 } = 3 := by
  refine ⟨fun s => rfl, rfl, ?_, ?_⟩
  · intro m hm
    unfold getModelPricing
    by_cases h : m = ""
    · simp [h]
    · simp [h, hm]
  · simp only [estimateCost, getModelPricing, lookupPricing, MODEL_PRICING,
      zeroMeta, sampleView]
    simp

/-- C5 witness: an unknown model id takes the fallback tier. -/
theorem estimateCost_bucket_sum_witness :
    getModelPricing (some "not-a-model") = FALLBACK_PRICING :=
  estimateCost_bucket_sum.2.2.1 "not-a-model" (by decide)

/-- C4 (amended): estimateHours sums per-session contributions and divides
by 3,600,000, where a session's contribution uses its sorted prompt
timestamps when at least one exists — floor of 5 minutes for a single
timestamp, otherwise the sum over consecutive pairs of min(gap, 15 min) —
but with zero prompt timestamps the session falls back to the positive
endpoints of its recorded time range rather than the 5-minute floor. A
session with exactly one prompt timestamp contributes exactly 5 minutes
(1/12 h) regardless of its recorded duration, and prompts at 0, 5 min and
40 min give (5+15)/60 = 1/3 h. -/
theorem estimateHours_gap_capped :
    (∀ sessions : List SessionInfo,
      estimateHours sessions =
        ((sessions.map sessionContributionMs).sum : ℚ) / 3600000) ∧
    (∀ (s : SessionInfo) (t : Int), s.promptTimestamps = [t] →
      estimateHours [s] = 1 / 12) ∧
    (∀ s : SessionInfo, s.promptTimestamps = [0, 300000, 2400000] →
      estimateHours [s] = 1 / 3) := by
  have hsum : ∀ sessions : List SessionInfo,
      estimateHours sessions =
        ((sessions.map sessionContributionMs).sum : ℚ) / 3600000 := by
    intro sessions
    unfold estimateHours
    cases sessions with
    | nil => simp
    | cons x xs =>
      rw [if_neg (by simp)]
      rw [foldl_contribution]
      norm_num
  refine ⟨hsum, ?_, ?_⟩
  · intro s t hs
    rw [hsum]
    have hc : sessionContributionMs s = 300000 := by
      unfold sessionContributionMs sessionTimestamps sortInts
      rw [hs]
      simp [List.mergeSort_singleton]
    rw [List.map_singleton, hc]
    norm_num
  · intro s hs
    rw [hsum]
    have hc : sessionContributionMs s = 1200000 := by
      unfold sessionContributionMs sessionTimestamps sortInts
      rw [hs]
      rw [List.mergeSort_of_sorted (by decide)]
      simp [gapSumMs, GAP_CAP_MS]
    rw [List.map_singleton, hc]
    norm_num

/-- C4 witness: a session whose only prompt timestamp is 42 but whose
recorded time range spans much longer still contributes 1/12 h. -/
theorem estimateHours_gap_capped_witness :
    estimateHours [{ sampleView with
      promptTimestamps := [42]
      timeRange := { start := 0, «end» := 99999999 } }] = 1 / 12 :=
  estimateHours_gap_capped.2.1 _ 42 rfl

/-- C4 counterexample: a session with zero prompt timestamps and time
range {start := 1, end := 2} contributes min(1 ms, cap) = 1 ms, not the
5-minute floor the claim requires for a zero-timestamp session. -/
theorem estimateHours_zero_timestamp_fallback :
    estimateHours [c4Session] = 1 / 3600000 ∧
    (1 : ℚ) / 3600000 ≠ 1 / 12 := by
  constructor
  · have hc : sessionContributionMs c4Session = 1 := by decide
    unfold estimateHours
    rw [if_neg (by simp)]
    show ((0 + sessionContributionMs c4Session : Int) : ℚ) / _ = _
    rw [hc]
    norm_num
  · norm_num

/-- C2: peekSession applies no privacy filtering — this record carries a
tool-result payload, so the "local" profile's filter suppresses it
(filterTranscriptEntry returns none), yet peekSession still accumulates
its 7 input tokens and counts its message. The spec requires suppressed
records to contribute nothing. -/
theorem peekSession_counts_suppressed_record :
    filterTranscriptEntry "/home/u" c2Entry LOCAL_PROFILE = none ∧
    (peekSession sampleView (some [Line.ok c2Entry]) LOCAL_PROFILE).totalInputTokens = 7 ∧
    (peekSession sampleView (some [Line.ok c2Entry]) LOCAL_PROFILE).messageCount = 1 := by
  refine ⟨by decide, by decide, by decide⟩

/-- C8: Absent resources and malformed lines never surface as failures:
readHistory on a missing log file returns the empty list; peekSession and
parseSessionDetail on a missing transcript file return the zero-valued
metadata/detail object unioned onto the input view; and in all three
scans a malformed line is skipped while the scan continues over the
remaining lines. -/
theorem readers_absent_and_malformed :
    (∀ (home : String) (dateOf : Int → String) (fromDate toDate : String)
        (privacy : PrivacyConfig),
      readHistory home dateOf none fromDate toDate privacy = []) ∧
    (∀ (s : SessionInfo) (privacy : PrivacyConfig),
      peekSession s none privacy = zeroMeta s) ∧
    (∀ (home : String) (s : SessionInfo) (privacy : PrivacyConfig),
      parseSessionDetail home s none privacy = zeroDetail s) ∧
    (∀ (home : String) (dateOf : Int → String) (fromDate toDate : String)
        (privacy : PrivacyConfig) (l1 l2 : List (Line HistoryEntry)),
      readHistory home dateOf (some (l1 ++ Line.malformed :: l2))
          fromDate toDate privacy =
        readHistory home dateOf (some (l1 ++ l2)) fromDate toDate privacy) ∧
    (∀ (s : SessionInfo) (privacy : PrivacyConfig)
        (l1 l2 : List (Line TranscriptEntry)),
      peekSession s (some (l1 ++ Line.malformed :: l2)) privacy =
        peekSession s (some (l1 ++ l2)) privacy) ∧
    (∀ (home : String) (s : SessionInfo) (privacy : PrivacyConfig)
        (l1 l2 : List (Line TranscriptEntry)),
      parseSessionDetail home s (some (l1 ++ Line.malformed :: l2)) privacy =
        parseSessionDetail home s (some (l1 ++ l2)) privacy) := by
  refine ⟨fun _ _ _ _ _ => rfl, fun _ _ => rfl, fun _ _ _ => rfl, ?_, ?_, ?_⟩
  · intro home dateOf fromDate toDate privacy l1 l2
    simp [readHistory, List.filterMap_append, List.filterMap_cons, acceptLine]
  · intro s privacy l1 l2
    simp [peekSession, List.foldl_append, List.foldl_cons, peekStep]
  · intro home s privacy l1 l2
    simp [parseSessionDetail, List.foldl_append, List.foldl_cons, parseStep]

/-- Identity instances of the frame property. -/
theorem framePreserved_refl (entry : TranscriptEntry) :
    FramePreserved entry entry := by
  refine ⟨rfl, rfl, rfl, rfl, rfl, rfl, fun h => h, fun m hm => ⟨m, hm, rfl, rfl, rfl⟩⟩

/-- Replacing only the message of an entry, with a new message agreeing
with the old on role, model and usage, preserves the frame. -/
theorem framePreserved_msgUpdate (entry : TranscriptEntry) (msg : Message)
    (hm : entry.message = some msg) (m' : Message)
    (hr : m'.role = msg.role) (hmo : m'.model = msg.model)
    (hu : m'.usage = msg.usage) :
    FramePreserved entry { entry with message := some m' } := by
  refine ⟨rfl, rfl, rfl, rfl, rfl, rfl, by simp [hm], ?_⟩
  intro m hmm
  rw [hm] at hmm
  cases hmm
  exact ⟨m', rfl, hr, hmo, hu⟩

/-- The fall-through branch preserves the frame. -/
theorem filterAssistantCase_frame (home : String) (config : PrivacyConfig)
    (entry : TranscriptEntry) (msg : Message) (hm : entry.message = some msg)
    (e' : TranscriptEntry)
    (h : filterAssistantCase home config entry msg = some e') :
    FramePreserved entry e' := by
  unfold filterAssistantCase at h
  rcases hro : msg.role with _ | r
  · rw [hro] at h
    simp only [Option.some.injEq] at h
    subst h
    exact framePreserved_refl entry
  · rcases hc : msg.content with _ | c
    · rw [hro, hc] at h
      cases r <;> simp only [Option.some.injEq] at h <;> subst h <;>
        exact framePreserved_refl entry
    · cases r with
      | user =>
        rw [hro, hc] at h
        cases c <;> simp only [Option.some.injEq] at h <;> subst h <;>
          exact framePreserved_refl entry
      | assistant =>
        cases c with
        | str s =>
          rw [hro, hc] at h
          simp only [Option.some.injEq] at h
          subst h
          exact framePreserved_refl entry
        | blocks bs =>
          rw [hro, hc] at h
          simp only [Option.some.injEq] at h
          subst h
          exact framePreserved_msgUpdate entry msg hm _ (by simp [hro]) rfl rfl

/-- The message branch preserves the frame. -/
theorem filterMessageCase_frame (home : String) (config : PrivacyConfig)
    (entry : TranscriptEntry) (msg : Message) (hm : entry.message = some msg)
    (e' : TranscriptEntry)
    (h : filterMessageCase home config entry msg = some e') :
    FramePreserved entry e' := by
  unfold filterMessageCase at h
  by_cases hrp : (config.redactPrompts && msg.role = some Role.user) = true
  · rw [if_pos hrp] at h
    rcases hc : msg.content with _ | c
    · rw [hc] at h
      exact filterAssistantCase_frame home config entry msg hm e' h
    · cases c with
      | str s =>
        rw [hc] at h
        simp only [Option.some.injEq] at h
        subst h
        exact framePreserved_msgUpdate entry msg hm _ rfl rfl rfl
      | blocks bs =>
        rw [hc] at h
        exact filterAssistantCase_frame home config entry msg hm e' h
  · rw [if_neg hrp] at h
    exact filterAssistantCase_frame home config entry msg hm e' h

/-- C10: For every transcript entry and privacy configuration,
filterTranscriptEntry either suppresses the entry entirely or returns an
entry identical to the input in every field except possibly the message
content: timestamp, sessionId, gitBranch, isSidechain, planContent and
toolUseResult, and the message's role, model and usage, are never altered
or fabricated. -/
theorem filterTranscriptEntry_frame :
    ∀ (home : String) (entry : TranscriptEntry) (config : PrivacyConfig)
      (e' : TranscriptEntry),
      filterTranscriptEntry home entry config = some e' →
      FramePreserved entry e' := by
  intro home entry config e' h
  unfold filterTranscriptEntry at h
  by_cases hstrip : (config.stripToolResults && entry.toolUseResult) = true
  · rw [if_pos hstrip] at h
    exact Option.noConfusion h
  · rw [if_neg hstrip] at h
    rcases hm : entry.message with _ | msg
    · rw [hm] at h
      have h' : entry = e' := by injection h
      subst h'
      exact framePreserved_refl entry
    · rw [hm] at h
      exact filterMessageCase_frame home config entry msg hm e' h

/-- C10 witness: on a concrete assistant entry with one thinking block,
the "local" filter strips the block and keeps every frame field. -/
theorem filterTranscriptEntry_frame_witness :
    filterTranscriptEntry "/home/u" c10Before LOCAL_PROFILE = some c10After ∧
    FramePreserved c10Before c10After :=
  ⟨by decide, filterTranscriptEntry_frame "/home/u" c10Before LOCAL_PROFILE c10After (by decide)⟩

/-- Every prompt in the output of one grouping step is either already in
the map or is the redacted display of the processed entry. -/
theorem groupStep_prompts (home : String) (privacy : PrivacyConfig)
    (m : List (String × SessionGroup)) (e : HistoryEntry)
    (kv : String × SessionGroup) (hkv : kv ∈ groupStep home privacy m e) :
    ∀ p ∈ kv.2.prompts,
      (∃ kv0 ∈ m, p ∈ kv0.2.prompts) ∨ p = displayOf home privacy e := by
  intro p hp
  simp only [groupStep] at hkv
  by_cases hf : (m.find? fun kv => kv.1 = e.sessionId).isSome
  · rw [if_pos hf] at hkv
    rw [List.mem_map] at hkv
    obtain ⟨kv0, hkv0, heq⟩ := hkv
    by_cases hid : kv0.1 = e.sessionId
    · rw [if_pos hid] at heq
      subst heq
      rcases List.mem_append.mp hp with h1 | h2
      · exact Or.inl ⟨kv0, hkv0, h1⟩
      · simp only [List.mem_singleton] at h2
        exact Or.inr h2
    · rw [if_neg hid] at heq
      subst heq
      exact Or.inl ⟨kv0, hkv0, hp⟩
  · rw [if_neg hf] at hkv
    rcases List.mem_append.mp hkv with h1 | h2
    · exact Or.inl ⟨kv, h1, hp⟩
    · simp only [List.mem_singleton] at h2
      subst h2
      simp only [List.mem_singleton] at hp
      exact Or.inr hp

/-- Prompt provenance through the whole grouping fold. -/
theorem foldl_groupStep_prompts (home : String) (privacy : PrivacyConfig) :
    ∀ (entries : List HistoryEntry) (m : List (String × SessionGroup))
      (kv : String × SessionGroup),
      kv ∈ entries.foldl (groupStep home privacy) m →
      ∀ p ∈ kv.2.prompts,
        (∃ kv0 ∈ m, p ∈ kv0.2.prompts) ∨
        ∃ e ∈ entries, p = displayOf home privacy e := by
  intro entries
  induction entries with
  | nil =>
    intro m kv hkv p hp
    exact Or.inl ⟨kv, hkv, hp⟩
  | cons e es ih =>
    intro m kv hkv p hp
    rw [List.foldl_cons] at hkv
    rcases ih (groupStep home privacy m e) kv hkv p hp with ⟨kv0, h0, hp0⟩ | ⟨e', he', hpe⟩
    · rcases groupStep_prompts home privacy m e kv0 h0 p hp0 with ⟨kv1, h1, hp1⟩ | hpe
      · exact Or.inl ⟨kv1, h1, hp1⟩
      · exact Or.inr ⟨e, List.mem_cons_self e es, hpe⟩
    · exact Or.inr ⟨e', List.mem_cons_of_mem e he', hpe⟩

/-- Every prompt of every returned view is the redacted display of some
accepted history row. -/
theorem readHistory_prompts (home : String) (dateOf : Int → String)
    (lines : List (Line HistoryEntry)) (fromDate toDate : String)
    (privacy : PrivacyConfig) (v : SessionInfo)
    (hv : v ∈ readHistory home dateOf (some lines) fromDate toDate privacy) :
    ∀ p ∈ v.prompts,
      ∃ e ∈ lines.filterMap (acceptLine dateOf fromDate toDate privacy),
        p = displayOf home privacy e := by
  intro p hp
  simp only [readHistory] at hv
  have hv' := (List.mergeSort_perm _ sessionLe).mem_iff.mp hv
  rw [List.mem_map] at hv'
  obtain ⟨kv, hkv, hbuild⟩ := hv'
  have hpk : p ∈ kv.2.prompts := by
    rw [← hbuild] at hp
    exact hp
  rcases foldl_groupStep_prompts home privacy _ [] kv hkv p hpk with ⟨kv0, h0, _⟩ | h
  · exact absurd h0 (List.not_mem_nil kv0)
  · exact h

/-- Key list of one grouping step. -/
theorem groupStep_map_fst (home : String) (privacy : PrivacyConfig)
    (m : List (String × SessionGroup)) (e : HistoryEntry) :
    (groupStep home privacy m e).map Prod.fst =
      if (m.find? fun kv => kv.1 = e.sessionId).isSome then m.map Prod.fst
      else m.map Prod.fst ++ [e.sessionId] := by
  simp only [groupStep]
  by_cases hf : (m.find? fun kv => kv.1 = e.sessionId).isSome
  · rw [if_pos hf, if_pos hf, List.map_map]
    apply List.map_congr_left
    intro kv _
    by_cases hid : kv.1 = e.sessionId
    · simp [hid]
    · simp [hid]
  · rw [if_neg hf, if_neg hf, List.map_append]
    rfl

/-- The grouping fold keeps keys duplicate-free. -/
theorem foldl_groupStep_fst_nodup (home : String) (privacy : PrivacyConfig) :
    ∀ (entries : List HistoryEntry) (m : List (String × SessionGroup)),
      (m.map Prod.fst).Nodup →
      ((entries.foldl (groupStep home privacy) m).map Prod.fst).Nodup := by
  intro entries
  induction entries with
  | nil => intro m hm; exact hm
  | cons e es ih =>
    intro m hm
    rw [List.foldl_cons]
    apply ih
    rw [groupStep_map_fst]
    by_cases hf : (m.find? fun kv => kv.1 = e.sessionId).isSome
    · rw [if_pos hf]; exact hm
    · rw [if_neg hf]
      have hnone := Option.not_isSome_iff_eq_none.mp hf
      rw [List.find?_eq_none] at hnone
      have hnot : e.sessionId ∉ m.map Prod.fst := by
        intro hmem
        rw [List.mem_map] at hmem
        obtain ⟨kv, hkv, hfst⟩ := hmem
        exact (hnone kv hkv) (by simp [hfst])
      simp [List.nodup_append, hm, hnot]

/-- Keys only grow along the grouping fold. -/
theorem foldl_groupStep_fst_mono (home : String) (privacy : PrivacyConfig) :
    ∀ (entries : List HistoryEntry) (m : List (String × SessionGroup))
      (x : String), x ∈ m.map Prod.fst →
      x ∈ (entries.foldl (groupStep home privacy) m).map Prod.fst := by
  intro entries
  induction entries with
  | nil => intro m x hx; exact hx
  | cons e es ih =>
    intro m x hx
    rw [List.foldl_cons]
    apply ih
    rw [groupStep_map_fst]
    by_cases hf : (m.find? fun kv => kv.1 = e.sessionId).isSome
    · rw [if_pos hf]; exact hx
    · rw [if_neg hf]; exact List.mem_append_left _ hx

/-- Every grouped entry's session id ends up among the keys. -/
theorem foldl_groupStep_fst_mem (home : String) (privacy : PrivacyConfig) :
    ∀ (entries : List HistoryEntry) (m : List (String × SessionGroup))
      (e : HistoryEntry), e ∈ entries →
      e.sessionId ∈ (entries.foldl (groupStep home privacy) m).map Prod.fst := by
  intro entries
  induction entries with
  | nil => intro m e he; cases he
  | cons e' es ih =>
    intro m e he
    rw [List.foldl_cons]
    rcases List.mem_cons.mp he with rfl | hes
    · apply foldl_groupStep_fst_mono
      rw [groupStep_map_fst]
      by_cases hf : (m.find? fun kv => kv.1 = e.sessionId).isSome
      · rw [if_pos hf]
        obtain ⟨kv, hkv⟩ := Option.isSome_iff_exists.mp hf
        have h1 := List.find?_some hkv
        have h2 := List.mem_of_find?_eq_some hkv
        rw [List.mem_map]
        exact ⟨kv, h2, by simpa using h1⟩
      · rw [if_neg hf]
        exact List.mem_append_right _ (List.mem_singleton.mpr rfl)
    · exact ih _ e hes

/-- Filtering out the rows outside the date window changes nothing in the
accepted-entry list. -/
theorem filterMap_acceptLine_window (dateOf : Int → String)
    (fromDate toDate : String) (privacy : PrivacyConfig) :
    ∀ lines : List (Line HistoryEntry),
      (lines.filter (inWindow dateOf fromDate toDate)).filterMap
        (acceptLine dateOf fromDate toDate privacy) =
      lines.filterMap (acceptLine dateOf fromDate toDate privacy) := by
  intro lines
  induction lines with
  | nil => rfl
  | cons l ls ih =>
    by_cases hw : inWindow dateOf fromDate toDate l = true
    · rw [List.filter_cons_of_pos hw, List.filterMap_cons, List.filterMap_cons, ih]
    · cases l with
      | blank => simp [inWindow] at hw
      | malformed => simp [inWindow] at hw
      | ok e =>
        have hcond : (jsStrLt (dateOf e.timestamp) fromDate ||
            jsStrLt toDate (dateOf e.timestamp)) = true := by
          cases hb : (jsStrLt (dateOf e.timestamp) fromDate ||
              jsStrLt toDate (dateOf e.timestamp)) with
          | true => rfl
          | false => exact absurd (by simp [inWindow, hb]) hw
        rw [List.filter_cons_of_neg (by simpa [inWindow] using hw)]
        rw [List.filterMap_cons]
        have hacc : acceptLine dateOf fromDate toDate privacy (Line.ok e) = none := by
          simp only [acceptLine]
          rw [if_pos hcond]
        rw [hacc, ih]

/-- Transitivity of the output comparator. -/
theorem sessionLe_trans (a b c : SessionInfo) (hab : sessionLe a b = true)
    (hbc : sessionLe b c = true) : sessionLe a c = true := by
  simp only [sessionLe, decide_eq_true_eq] at *
  omega

/-- Totality of the output comparator. -/
theorem sessionLe_total (a b : SessionInfo) :
    (sessionLe a b || sessionLe b a) = true := by
  simp only [sessionLe, Bool.or_eq_true, decide_eq_true_eq]
  omega

/-- Output session ids are a permutation of the grouping-map keys. -/
theorem readHistory_ids_perm (home : String) (dateOf : Int → String)
    (lines : List (Line HistoryEntry)) (fromDate toDate : String)
    (privacy : PrivacyConfig) :
    ((readHistory home dateOf (some lines) fromDate toDate privacy).map
        (fun v => v.sessionId)).Perm
      (((lines.filterMap (acceptLine dateOf fromDate toDate privacy)).foldl
          (groupStep home privacy) []).map Prod.fst) := by
  simp only [readHistory]
  have h1 : ∀ X : List (String × SessionGroup),
      (X.map buildSession).map (fun v => v.sessionId) = X.map Prod.fst := by
    intro X
    rw [List.map_map]
    rfl
  have h2 := (List.mergeSort_perm
    (((lines.filterMap (acceptLine dateOf fromDate toDate privacy)).foldl
        (groupStep home privacy) []).map buildSession) sessionLe).map
    (fun v => v.sessionId)
  rw [h1] at h2
  exact h2

/-- C7: every accepted record's session id appears in exactly one returned
SessionView (ids are duplicate-free and every accepted id occurs), records
dated outside the requested window contribute nothing (filtering them away
first yields the same result), and the output is sorted ascending by
time-range start. -/
theorem readHistory_partition_window_sorted :
    ∀ (home : String) (dateOf : Int → String) (lines : List (Line HistoryEntry))
      (fromDate toDate : String) (privacy : PrivacyConfig),
      ((readHistory home dateOf (some lines) fromDate toDate privacy).map
          (fun v => v.sessionId)).Nodup ∧
      (∀ l ∈ lines, ∀ e : HistoryEntry,
        acceptLine dateOf fromDate toDate privacy l = some e →
        e.sessionId ∈ (readHistory home dateOf (some lines) fromDate toDate
            privacy).map (fun v => v.sessionId)) ∧
      readHistory home dateOf (some lines) fromDate toDate privacy =
        readHistory home dateOf
          (some (lines.filter (inWindow dateOf fromDate toDate)))
          fromDate toDate privacy ∧
      (readHistory home dateOf (some lines) fromDate toDate privacy).Pairwise
        (fun a b => a.timeRange.start ≤ b.timeRange.start) := by
  intro home dateOf lines fromDate toDate privacy
  have hperm := readHistory_ids_perm home dateOf lines fromDate toDate privacy
  refine ⟨?_, ?_, ?_, ?_⟩
  · exact hperm.symm.nodup
      (foldl_groupStep_fst_nodup home privacy _ [] (by simp))
  · intro l hl e hacc
    have he : e ∈ lines.filterMap (acceptLine dateOf fromDate toDate privacy) :=
      List.mem_filterMap.mpr ⟨l, hl, hacc⟩
    exact hperm.mem_iff.mpr (foldl_groupStep_fst_mem home privacy _ [] e he)
  · simp only [readHistory]
    rw [filterMap_acceptLine_window]
  · simp only [readHistory]
    have hs := List.sorted_mergeSort sessionLe_trans sessionLe_total
      (((lines.filterMap (acceptLine dateOf fromDate toDate privacy)).foldl
          (groupStep home privacy) []).map buildSession)
    exact hs.imp fun hab => of_decide_eq_true hab

/-- C7 witness: on a one-row log inside the window, the row's session id
appears among the output ids. -/
theorem readHistory_partition_window_sorted_witness :
    ("s1" : String) ∈ (readHistory "/home/u" (fun _ => "2024-01-01")
        (some [Line.ok c3Row]) "2024-01-01" "2024-01-01" LOCAL_PROFILE).map
      (fun v => v.sessionId) :=
  (readHistory_partition_window_sorted "/home/u" (fun _ => "2024-01-01")
      [Line.ok c3Row] "2024-01-01" "2024-01-01" LOCAL_PROFILE).2.1
    (Line.ok c3Row) (List.mem_singleton.mpr rfl) c3Row (by decide)

/-- When a message is present and the record is not suppressed,
filterTranscriptEntry reduces to the message branch. -/
theorem filterTranscriptEntry_some_message (home : String)
    (config : PrivacyConfig) (entry : TranscriptEntry) (msg : Message)
    (hm : entry.message = some msg)
    (hns : ¬(config.stripToolResults && entry.toolUseResult) = true) :
    filterTranscriptEntry home entry config =
      filterMessageCase home config entry msg := by
  unfold filterTranscriptEntry
  rw [if_neg hns, hm]

/-- C1 (amended): under the strict profile, every prompt stored in any
returned SessionView is the fixed marker "[redacted]", and a transcript
user-role message with string content has its content replaced by the
marker (unless the whole record is suppressed for its tool-result
payload); so the returned prompt text differs from the source whenever the
source is not itself the marker. A user-role message whose content is a
block array, however, is returned unchanged. -/
theorem strict_profile_prompt_redaction :
    (∀ (pats : List (String → String)) (home : String) (dateOf : Int → String)
        (lines : List (Line HistoryEntry)) (fromDate toDate : String)
        (v : SessionInfo) (p : String),
        v ∈ readHistory home dateOf (some lines) fromDate toDate
          (STRICT_PROFILE pats) →
        p ∈ v.prompts → p = "[redacted]") ∧
    (∀ (pats : List (String → String)) (home : String) (entry : TranscriptEntry)
        (msg : Message) (s : String),
        entry.message = some msg → msg.role = some Role.user →
        msg.content = some (MessageContent.str s) →
        filterTranscriptEntry home entry (STRICT_PROFILE pats) =
          (if entry.toolUseResult then none
           else some { entry with message := some ({ msg with
             content := some (MessageContent.str "[redacted]") }) })) ∧
    (∀ (pats : List (String → String)) (home : String) (entry : TranscriptEntry)
        (msg : Message) (bs : List ContentBlock),
        entry.message = some msg → msg.role = some Role.user →
        msg.content = some (MessageContent.blocks bs) →
        filterTranscriptEntry home entry (STRICT_PROFILE pats) =
          (if entry.toolUseResult then none else some entry)) := by
  refine ⟨?_, ?_, ?_⟩
  · intro pats home dateOf lines fromD toD v p hv hp
    obtain ⟨e, _, hpe⟩ :=
      readHistory_prompts home dateOf lines fromD toD _ v hv p hp
    exact hpe.trans rfl
  · intro pats home entry msg s hm hr hc
    by_cases ht : entry.toolUseResult = true
    · have hcond : ((STRICT_PROFILE pats).stripToolResults &&
          entry.toolUseResult) = true := by
        simp [STRICT_PROFILE, SHAREABLE_PROFILE, LOCAL_PROFILE, ht]
      unfold filterTranscriptEntry
      rw [if_pos hcond, if_pos ht]
    · have hcond : ¬ ((STRICT_PROFILE pats).stripToolResults &&
          entry.toolUseResult) = true := by
        simp [Bool.and_eq_true, ht]
      rw [filterTranscriptEntry_some_message home _ entry msg hm hcond,
        if_neg ht]
      unfold filterMessageCase
      have hrp : ((STRICT_PROFILE pats).redactPrompts &&
          msg.role = some Role.user) = true := by
        simp [STRICT_PROFILE, hr]
      rw [if_pos hrp, hc]
  · intro pats home entry msg bs hm hr hc
    by_cases ht : entry.toolUseResult = true
    · have hcond : ((STRICT_PROFILE pats).stripToolResults &&
          entry.toolUseResult) = true := by
        simp [STRICT_PROFILE, SHAREABLE_PROFILE, LOCAL_PROFILE, ht]
      unfold filterTranscriptEntry
      rw [if_pos hcond, if_pos ht]
    · have hcond : ¬ ((STRICT_PROFILE pats).stripToolResults &&
          entry.toolUseResult) = true := by
        simp [Bool.and_eq_true, ht]
      rw [filterTranscriptEntry_some_message home _ entry msg hm hcond,
        if_neg ht]
      unfold filterMessageCase
      have hrp : ((STRICT_PROFILE pats).redactPrompts &&
          msg.role = some Role.user) = true := by
        simp [STRICT_PROFILE, hr]
      rw [if_pos hrp, hc]
      unfold filterAssistantCase
      rw [hr, hc]

/-- C1 witness: a user message with string content comes back with the
marker as its content under strict. -/
theorem strict_profile_prompt_redaction_witness :
    filterTranscriptEntry "/home/u" c1StrEntry (STRICT_PROFILE c1Pats) =
      some { c1StrEntry with message := some ({ c1StrMessage with
        content := some (MessageContent.str "[redacted]") }) } := by
  have h := strict_profile_prompt_redaction.2.1 c1Pats "/home/u" c1StrEntry
    c1StrMessage "hello world" rfl rfl rfl
  simpa using h

/-- C1 counterexample: under strict, a user-role message whose content is
a block array keeps its text verbatim (the filter returns it unchanged),
and a history row whose display text already equals the marker is returned
as exactly that same text — in both concrete cases the returned
user-prompt text does not differ from its source. -/
theorem strict_profile_prompt_unchanged_cases :
    filterTranscriptEntry "/home/u" c1BlockEntry (STRICT_PROFILE c1Pats) =
      some c1BlockEntry ∧
    extractText (c1BlockEntry.message.bind (fun m => m.content)) =
      "my secret token" ∧
    readHistory "/home/u" (fun _ => "2024-01-01") (some [Line.ok c1HistoryRow])
        "2024-01-01" "2024-01-01" (STRICT_PROFILE c1Pats) =
      [{ sessionId := "s1"
         project := "/w/app"
         projectName := "app"
         prompts := ["[redacted]"]
         promptTimestamps := [5]
         timeRange := { start := 5, «end» := 5 } }] ∧
    c1HistoryRow.display = "[redacted]" := by
  exact ⟨by decide, by decide, mergeSortEq_of_singleton (by decide), rfl⟩

/-- C3 (amended): every prompt stored by readHistory comes from an
accepted row and equals, per row: the fixed marker when redactPrompts is
set; otherwise redactString of the display text when at least one
redaction pattern is configured; otherwise the display text verbatim —
even when home-directory or absolute-path redaction is enabled. -/
theorem readHistory_per_row_redaction :
    ∀ (home : String) (dateOf : Int → String) (lines : List (Line HistoryEntry))
      (fromDate toDate : String) (privacy : PrivacyConfig) (v : SessionInfo)
      (p : String),
      v ∈ readHistory home dateOf (some lines) fromDate toDate privacy →
      p ∈ v.prompts →
      ∃ e ∈ lines.filterMap (acceptLine dateOf fromDate toDate privacy),
        p = (if privacy.redactPrompts then "[redacted]"
             else if privacy.redactPatterns.length > 0 then
               redactString home e.display privacy
             else e.display) := by
  intro home dateOf lines fromD toD privacy v p hv hp
  obtain ⟨e, he, hpe⟩ :=
    readHistory_prompts home dateOf lines fromD toD privacy v hv p hp
  exact ⟨e, he, hpe⟩

/-- C3 witness: the per-row rule instantiated on a one-row log under the
"shareable" profile. -/
theorem readHistory_per_row_redaction_witness :
    ∃ e ∈ [Line.ok c3Row].filterMap
        (acceptLine (fun _ => "2024-01-01") "2024-01-01" "2024-01-01"
          SHAREABLE_PROFILE),
      c3Row.display = (if SHAREABLE_PROFILE.redactPrompts then "[redacted]"
        else if SHAREABLE_PROFILE.redactPatterns.length > 0 then
          redactString "/home/u" e.display SHAREABLE_PROFILE
        else e.display) := by
  apply readHistory_per_row_redaction "/home/u" (fun _ => "2024-01-01")
    [Line.ok c3Row] "2024-01-01" "2024-01-01" SHAREABLE_PROFILE c3View
    c3Row.display ?_ (by decide)
  have hread : readHistory "/home/u" (fun _ => "2024-01-01")
      (some [Line.ok c3Row]) "2024-01-01" "2024-01-01" SHAREABLE_PROFILE =
      [c3View] := mergeSortEq_of_singleton (by decide)
  rw [hread]
  exact List.mem_singleton.mpr rfl

/-- C3 counterexample: under the "shareable" profile (home and path
redaction on, no patterns), the stored prompt is the raw display text, and
redactString of that display differs — so the stored prompt is not
redactString of the display, contrary to the claim. -/
theorem readHistory_shareable_raw_prompt :
    readHistory "/home/u" (fun _ => "2024-01-01") (some [Line.ok c3Row])
        "2024-01-01" "2024-01-01" SHAREABLE_PROFILE = [c3View] ∧
    c3View.prompts = [c3Row.display] ∧
    redactString "/home/u" c3Row.display SHAREABLE_PROFILE =
      "creds at ~/creds.txt" ∧
    redactString "/home/u" c3Row.display SHAREABLE_PROFILE ≠ c3Row.display := by
  exact ⟨mergeSortEq_of_singleton (by decide), rfl, by decide, by decide⟩

/-- A non-empty string is truthy. -/
theorem isEmpty_false_of_ne (n : String) (hn : n ≠ "") : n.isEmpty = false := by
  cases hni : n.isEmpty
  · rfl
  · exact absurd ((String.isEmpty_iff n).mp hni) hn

/-- Joining no strings yields the empty string. -/
theorem intercalate_nil (sep : String) : sep.intercalate [] = "" := rfl

/-- The empty string is empty. -/
theorem isEmpty_empty_str : ("" : String).isEmpty = true := rfl

/-- C6 dedup helper: a session whose transcript is one assistant message
with two identical tool_use blocks yields a single ToolCallSummary. -/
theorem parseDetail_two_identical (home : String) (s : SessionInfo)
    (tx th : Option String) (inp : Option ToolInput) (n : String)
    (hn : n ≠ "") :
    (parseSessionDetail home s (some [Line.ok (assistantBlocksEntry
      [⟨BlockType.tool_use, tx, th, some n, inp⟩,
       ⟨BlockType.tool_use, tx, th, some n, inp⟩])]) LOCAL_PROFILE).toolCalls =
      [⟨n, toolDisplayName n inp, categorizeToolName n,
        extractToolTarget ⟨BlockType.tool_use, tx, th, some n, inp⟩⟩] := by
  have hne := isEmpty_false_of_ne n hn
  simp [parseSessionDetail, parseStep, assistantBlocksEntry,
    filterTranscriptEntry, filterMessageCase, filterAssistantCase,
    filterContentBlocks, LOCAL_PROFILE, extractToolCalls, extractText,
    extractFilePaths, countThinkingBlocks, mapSet, setAdd, strOptTruthy,
    contentTruthy, hne, intercalate_nil, isEmpty_empty_str]

/-- C6 dedup helper: two tool_use blocks with different display names
yield two ToolCallSummary entries, in encounter order. -/
theorem parseDetail_two_distinct (home : String) (s : SessionInfo)
    (tx1 th1 tx2 th2 : Option String) (inp1 inp2 : Option ToolInput)
    (n1 n2 : String) (hn1 : n1 ≠ "") (hn2 : n2 ≠ "")
    (hdn : toolDisplayName n1 inp1 ≠ toolDisplayName n2 inp2) :
    (parseSessionDetail home s (some [Line.ok (assistantBlocksEntry
      [⟨BlockType.tool_use, tx1, th1, some n1, inp1⟩,
       ⟨BlockType.tool_use, tx2, th2, some n2, inp2⟩])]) LOCAL_PROFILE).toolCalls =
      [⟨n1, toolDisplayName n1 inp1, categorizeToolName n1,
        extractToolTarget ⟨BlockType.tool_use, tx1, th1, some n1, inp1⟩⟩,
       ⟨n2, toolDisplayName n2 inp2, categorizeToolName n2,
        extractToolTarget ⟨BlockType.tool_use, tx2, th2, some n2, inp2⟩⟩] := by
  have hne1 := isEmpty_false_of_ne n1 hn1
  have hne2 := isEmpty_false_of_ne n2 hn2
  simp [parseSessionDetail, parseStep, assistantBlocksEntry,
    filterTranscriptEntry, filterMessageCase, filterAssistantCase,
    filterContentBlocks, LOCAL_PROFILE, extractToolCalls, extractText,
    extractFilePaths, countThinkingBlocks, mapSet, setAdd, strOptTruthy,
    contentTruthy, hne1, hne2, hdn, intercalate_nil, isEmpty_empty_str]

/-- C6 (amended): the display name is the tool name with its known
namespace prefix stripped, with the most salient argument appended in the
priority order file path (last two segments) > shell command (first
whitespace-delimited token) > search pattern; a notebook path or a query
is never appended to the display name (they feed only the separate target
field, where a query is truncated to 80 characters). Within a session the
display name is the dedup key: two invocation blocks with identical name
and identical salient argument collapse into one ToolCallSummary, while
blocks with differing display names produce two entries. -/
theorem toolDisplayName_salient_dedup :
    (∀ (n fp : String) (np cmd pat q : Option String), fp ≠ "" →
      toolDisplayName n (some ⟨some fp, np, cmd, pat, q⟩) =
        shortToolName n ++ "(" ++ lastTwoSegments fp ++ ")") ∧
    (∀ (n cmd : String) (np pat q : Option String), cmd ≠ "" →
      toolDisplayName n (some ⟨none, np, some cmd, pat, q⟩) =
        shortToolName n ++ "(" ++ ((jsSplit cmd " ").headD "") ++ ")") ∧
    (∀ (n pat : String) (np q : Option String), pat ≠ "" →
      toolDisplayName n (some ⟨none, np, none, some pat, q⟩) =
        shortToolName n ++ "(" ++ pat ++ ")") ∧
    (∀ (n : String) (np q : Option String),
      toolDisplayName n (some ⟨none, np, none, none, q⟩) = shortToolName n) ∧
    (∀ (q : String) (ty : BlockType) (tx th nm : Option String), q ≠ "" →
      extractToolTarget ⟨ty, tx, th, nm, some ⟨none, none, none, none, some q⟩⟩ =
        some (q.take 80)) ∧
    (∀ (home : String) (s : SessionInfo) (tx th : Option String)
        (inp : Option ToolInput) (n : String), n ≠ "" →
      (parseSessionDetail home s (some [Line.ok (assistantBlocksEntry
        [⟨BlockType.tool_use, tx, th, some n, inp⟩,
         ⟨BlockType.tool_use, tx, th, some n, inp⟩])]) LOCAL_PROFILE).toolCalls =
        [⟨n, toolDisplayName n inp, categorizeToolName n,
          extractToolTarget ⟨BlockType.tool_use, tx, th, some n, inp⟩⟩]) ∧
    (∀ (home : String) (s : SessionInfo) (tx1 th1 tx2 th2 : Option String)
        (inp1 inp2 : Option ToolInput) (n1 n2 : String), n1 ≠ "" → n2 ≠ "" →
      toolDisplayName n1 inp1 ≠ toolDisplayName n2 inp2 →
      (parseSessionDetail home s (some [Line.ok (assistantBlocksEntry
        [⟨BlockType.tool_use, tx1, th1, some n1, inp1⟩,
         ⟨BlockType.tool_use, tx2, th2, some n2, inp2⟩])]) LOCAL_PROFILE).toolCalls =
        [⟨n1, toolDisplayName n1 inp1, categorizeToolName n1,
          extractToolTarget ⟨BlockType.tool_use, tx1, th1, some n1, inp1⟩⟩,
         ⟨n2, toolDisplayName n2 inp2, categorizeToolName n2,
          extractToolTarget ⟨BlockType.tool_use, tx2, th2, some n2, inp2⟩⟩]) := by
  refine ⟨?_, ?_, ?_, ?_, ?_, ?_, ?_⟩
  · intro n fp np cmd pat q hfp
    simp [toolDisplayName, strOptTruthy, isEmpty_false_of_ne fp hfp]
  · intro n cmd np pat q hcmd
    simp [toolDisplayName, strOptTruthy, isEmpty_false_of_ne cmd hcmd]
  · intro n pat np q hpat
    simp [toolDisplayName, strOptTruthy, isEmpty_false_of_ne pat hpat]
  · intro n np q
    simp [toolDisplayName, strOptTruthy]
  · intro q ty tx th nm hq
    simp [extractToolTarget, strOptTruthy, isEmpty_false_of_ne q hq]
  · intro home s tx th inp n hn
    exact parseDetail_two_identical home s tx th inp n hn
  · intro home s tx1 th1 tx2 th2 inp1 inp2 n1 n2 hn1 hn2 hdn
    exact parseDetail_two_distinct home s tx1 th1 tx2 th2 inp1 inp2 n1 n2 hn1 hn2 hdn

/-- C6 witness: a Read call on a file path gets the last two segments
appended. -/
theorem toolDisplayName_salient_dedup_witness :
    toolDisplayName "Read" (some ⟨some "/a/b/c.ts", none, none, none, none⟩) =
      shortToolName "Read" ++ "(" ++ lastTwoSegments "/a/b/c.ts" ++ ")" :=
  toolDisplayName_salient_dedup.1 "Read" "/a/b/c.ts" none none none none (by decide)

/-- C6 counterexample: with both a notebook path and a shell command
present, the code appends the command's first token — the claim's priority
order says the notebook path should outrank the shell command, which would
give "NotebookEdit(nb.ipynb)". -/
theorem toolDisplayName_priority_counterexample :
    toolDisplayName "NotebookEdit"
      (some ⟨none, some "nb.ipynb", some "ls -la", none, none⟩) =
      "NotebookEdit(ls)" ∧
    ("NotebookEdit(ls)" : String) ≠ "NotebookEdit(nb.ipynb)" := by
  exact ⟨by decide, by decide⟩

end ClaudeOptic
